import Mathlib

/-!
Verification of the translation-and-dispatch engine of `mcp-any-openapi`
(`mcp_openapi_proxy/server_fastmcp.py`).

The embedding translates `list_functions` and `call_function` from the source
file. The helpers imported there from `mcp_openapi_proxy.utils`
(`normalize_tool_name`, `is_tool_whitelisted`, `strip_parameters`,
`handle_auth`, `build_base_url`, `get_tool_prefix`, `fetch_openapi_spec`) are
not part of the sources; each is modelled from the design document and marked
as such in its doc comment. Environment-variable configuration is gathered in
an explicit `Config` record; the result of the spec fetch is an explicit
`Option SpecDoc` input (the Spec Accessor is external).

Outgoing HTTP is modelled up to the request that would be issued: a
successful dispatch produces `CallResult.request` carrying the method, the
final URL, the headers, the query parameters and the optional JSON body, and
each early `return json.dumps({"error": ...})` site in the source is one
error constructor of `CallResult` (with `renderResult` recovering the exact
message text).
-/

/-- Python-style parameter values as they occur in caller-supplied tool
arguments: strings, integers and booleans. -/
inductive PValue where
  | vStr (s : String)
  | vInt (n : Int)
  | vBool (b : Bool)
deriving DecidableEq

/-- Python truthiness of a `PValue`, as used by `if parameters["stream"]:`. -/
def truthy : PValue → Bool
  | .vStr s => s ≠ ""
  | .vInt n => n ≠ 0
  | .vBool b => b

/-- Python `str()` of a `PValue`, as used by `str(parameters.pop(...))`. -/
def pyStr : PValue → String
  | .vStr s => s
  | .vInt n => toString n
  | .vBool b => if b then "True" else "False"

/-- Caller-supplied parameters: an ordered mapping from names to values
(Python dict with unique keys, insertion order preserved). -/
abbrev ParamDict := List (String × PValue)

/-- First value bound to a key, `parameters.get(name)` on a dict. -/
def lookupD : ParamDict → String → Option PValue
  | [], _ => none
  | (k, v) :: rest, n => if k = n then some v else lookupD rest n

/-- Python `name in parameters`. -/
def hasKey (d : ParamDict) (n : String) : Bool :=
  (lookupD d n).isSome

/-- Python `del parameters[name]` / `parameters.pop(name)` on the mapping. -/
def removeKey : ParamDict → String → ParamDict
  | [], _ => []
  | (k, v) :: rest, n => if k = n then removeKey rest n else (k, v) :: removeKey rest n

/-- One declared OpenAPI parameter; optional fields model dict keys that may
be absent (`param.get(...)` defaults). `loc` is the `in` field. -/
structure Param where
  name : String
  loc : Option String
  declType : Option String
  required : Option Bool
  description : Option String
deriving DecidableEq

/-- One OpenAPI operation. `methodField` models the `"method"` key that
`call_function` writes into the operation dict (line 160 of the source);
it is absent in a freshly fetched document. -/
structure Operation where
  summary : Option String
  descr : Option String
  operationId : Option String
  parameters : List Param
  methodField : Option String
deriving DecidableEq

/-- A path item: ordered mapping from (lowercase, as-declared) HTTP method
names to operations. -/
abbrev PathItem := List (String × Operation)

/-- The fetched specification document: ordered `paths` mapping plus the
server/base-URL information consumed by `build_base_url`. -/
structure SpecDoc where
  paths : List (String × PathItem)
  serverUrl : Option String
deriving DecidableEq

/-- The process-wide configuration read from environment variables:
`OPENAPI_SPEC_URL` (after the `env_key` fallback), `TOOL_WHITELIST`, the
tool-name prefix, `STRIP_PARAM`, `API_KEY`, `SERVER_URL_OVERRIDE`. -/
structure Config where
  specUrl : Option String
  whitelist : Option String
  pfx : Option String
  stripKey : Option String
  apiKey : Option String
  serverUrlOverride : Option String
deriving DecidableEq

/-! String helpers. These re-implement, by structural recursion over the
character list, the Python string operations the source uses
(`.lower()`, `.upper()`, `.replace(...)`, `.rstrip('/')`, `.lstrip('/')`,
`.split(',')`, `.startswith(...)`), so that every definition evaluates by
kernel reduction. -/

/-- Python `s.lower()` (ASCII). -/
def lowerStr (s : String) : String :=
  (s.data.map Char.toLower).asString

/-- Python `s.upper()` (ASCII). -/
def upperStr (s : String) : String :=
  (s.data.map Char.toUpper).asString

/-- Fuel-bounded replacement of every occurrence of `pat` (nonempty) in `s`,
left to right, as Python `s.replace(pat, rep)`. -/
def replaceFuel : Nat → List Char → List Char → List Char → List Char
  | 0, s, _, _ => s
  | _ + 1, [], _, _ => []
  | fuel + 1, c :: rest, pat, rep =>
    if pat.isPrefixOf (c :: rest) then
      rep ++ replaceFuel fuel ((c :: rest).drop pat.length) pat rep
    else
      c :: replaceFuel fuel rest pat rep

/-- Python `s.replace(pat, rep)` for a nonempty pattern (the source only
replaces `"{name}"` patterns, which are never empty). -/
def strReplace (s pat rep : String) : String :=
  if pat.data = [] then s
  else (replaceFuel s.data.length s.data pat.data rep.data).asString

/-- Python `s.lstrip('/')`. -/
def lstripSlash (s : String) : String :=
  (s.data.dropWhile (fun c => c = '/')).asString

/-- Python `s.rstrip('/')`. -/
def rstripSlash (s : String) : String :=
  ((s.data.reverse.dropWhile (fun c => c = '/')).reverse).asString

/-- Helper for `splitComma`: accumulates the current entry reversed. -/
def splitCommaAux : List Char → List Char → List String
  | [], cur => [cur.reverse.asString]
  | c :: rest, cur =>
    if c = ',' then cur.reverse.asString :: splitCommaAux rest []
    else splitCommaAux rest (c :: cur)

/-- Python `s.split(',')`. -/
def splitComma (s : String) : List String :=
  splitCommaAux s.data []

/-- Python `s.startswith(pre)`. -/
def strStartsWith (s pre : String) : Bool :=
  pre.data.isPrefixOf s.data

/-! Modelled collaborators (from `mcp_openapi_proxy.utils`, not under the
sources of this repository). -/

/-- Modelled from the spec: `normalize_tool_name` converts a raw
`"<METHOD> <path>"` string into a canonical, deterministic tool identifier;
it lowercases the raw name, maps the space and the path separators to
name-safe `_` separators, and drops the `\x7b`/`\x7d` parameter braces.
Normalization accepts any string and always succeeds. -/
def normalize_tool_name (raw : String) : String :=
  ((lowerStr raw).data.filterMap (fun c =>
    if c = '\x7b' ∨ c = '\x7d' then none
    else if c = ' ' ∨ c = '/' then some '_'
    else some c)).asString

/-- Modelled from the spec: `is_tool_whitelisted` — with no whitelist
configured every path passes (fail-open); with a configured comma-separated
allow-list, a path passes iff some entry is a prefix of it (one consistent
matching strategy, used identically by listing and dispatch). -/
def is_tool_whitelisted (whitelist : Option String) (path : String) : Bool :=
  match whitelist with
  | none => true
  | some wl => (splitComma wl).any (fun entry => strStartsWith path entry)

/-- Modelled from the spec: `strip_parameters` removes the configured
`STRIP_PARAM` key from the caller mapping if present; passing no parameters
yields an empty mapping, never an error. -/
def strip_parameters (stripKey : Option String) (params : Option ParamDict) : ParamDict :=
  let d := params.getD []
  match stripKey with
  | none => d
  | some k => removeKey d k

/-- Modelled from the spec: `handle_auth` — with a configured bearer
credential emits an `Authorization: Bearer <token>` header, otherwise no
auth header; per-operation security schemes are not inspected. -/
def handle_auth (apiKey : Option String) (_op : Operation) : List (String × String) :=
  match apiKey with
  | none => []
  | some k => [("Authorization", "Bearer " ++ k)]

/-- Modelled from the spec: `build_base_url` — a configured base-URL override
takes precedence over the spec-declared server URL; an empty or absent value
on both sides yields no usable base URL. -/
def urlOrNone : Option String → Option String
  | some s => if s = "" then none else some s
  | none => none

/-- Modelled from the spec: see `urlOrNone` for the usability test. -/
def build_base_url (cfg : Config) (spec : SpecDoc) : Option String :=
  match urlOrNone cfg.serverUrlOverride with
  | some ov => some ov
  | none => urlOrNone spec.serverUrl

/-! The translation core, from `server_fastmcp.py`. -/

/-- Raw name `f"\x7bmethod.upper()\x7d \x7bpath\x7d"` (source line 71/139). -/
def mkRawName (method path : String) : String :=
  upperStr method ++ " " ++ path

/-- The normalized, optionally prefixed tool name (source lines 72-74 and
140-142; `get_tool_prefix` is modelled as the `pfx` configuration entry,
prepended when nonempty). -/
def toolName (cfg : Config) (method path : String) : String :=
  let base := normalize_tool_name (mkRawName method path)
  match cfg.pfx with
  | none => base
  | some p => if p = "" then base else p ++ base

/-- Supported methods filter (source lines 68 and 136). -/
def methodSupported (m : String) : Bool :=
  let ml := lowerStr m
  ml = "get" ∨ ml = "post" ∨ ml = "put" ∨ ml = "delete" ∨ ml = "patch"

/-- An enumerated (path, method, operation) triple; the method is kept as
declared (lowercase key of the path item). -/
abbrev Entry := String × String × Operation

/-- The tool name an entry produces. -/
def entryName (cfg : Config) (e : Entry) : String :=
  toolName cfg e.2.1 e.1

/-- The supported-method entries of one path item, in declaration order
(inner loop of both capabilities). -/
def itemEntries (path : String) : PathItem → List Entry
  | [] => []
  | (m, op) :: rest =>
    if methodSupported m then (path, m, op) :: itemEntries path rest
    else itemEntries path rest

/-- The enumeration `call_function` performs (source lines 132-153): every
path in document order, methods in declaration order, no whitelist filter. -/
def callEntries : List (String × PathItem) → List Entry
  | [] => []
  | (p, item) :: rest => itemEntries p item ++ callEntries rest

/-- The enumeration `list_functions` performs (source lines 53-70): like
`callEntries` but with non-whitelisted paths skipped before their methods
are visited. -/
def listEntries (cfg : Config) : List (String × PathItem) → List Entry
  | [] => []
  | (p, item) :: rest =>
    (if is_tool_whitelisted cfg.whitelist p then itemEntries p item else []) ++
      listEntries cfg rest

/-- One property entry of a derived input schema. -/
structure SchemaProp where
  name : String
  ptype : String
  descr : String
deriving DecidableEq

/-- The derived input schema: ordered properties mapping plus the required
list (the constant `"type": "object"` and `"additionalProperties": false`
fields of the source are fixed and carried implicitly). -/
structure InputSchema where
  properties : List SchemaProp
  required : List String
deriving DecidableEq

/-- Python dict assignment `properties[name] = ...`: replaces the value in
place when the key exists, appends otherwise. -/
def dictInsert : List SchemaProp → SchemaProp → List SchemaProp
  | [], pr => [pr]
  | q :: rest, pr =>
    if q.name = pr.name then pr :: rest else q :: dictInsert rest pr

/-- Lookup in the properties mapping. -/
def propLookup : List SchemaProp → String → Option SchemaProp
  | [], _ => none
  | q :: rest, n => if q.name = n then some q else propLookup rest n

/-- Declared type with the source's defaulting (lines 88-90): absent or
unrecognized types normalize to `"string"`. -/
def normType (p : Param) : String :=
  let t := p.declType.getD "string"
  if t = "string" ∨ t = "integer" ∨ t = "boolean" ∨ t = "number" then t
  else "string"

/-- Parameter description with the source's synthesized default (line 93). -/
def paramDescription (p : Param) : String :=
  p.description.getD (p.loc.getD "unknown" ++ " parameter " ++ p.name)

/-- Processing of one declared parameter (source lines 86-96). -/
def addParam (sch : InputSchema) (p : Param) : InputSchema :=
  { properties := dictInsert sch.properties ⟨p.name, normType p, paramDescription p⟩
    required := if p.required.getD false then sch.required ++ [p.name] else sch.required }

/-- Left fold of `addParam` over the declared parameters. -/
def deriveSchemaAux : InputSchema → List Param → InputSchema
  | sch, [] => sch
  | sch, p :: rest => deriveSchemaAux (addParam sch p) rest

/-- The input schema derived for an operation (source lines 80-96). -/
def deriveSchema (params : List Param) : InputSchema :=
  deriveSchemaAux ⟨[], []⟩ params

/-- One tool descriptor as registered by `list_functions` (lines 97-105). -/
structure FuncDesc where
  name : String
  description : String
  path : String
  method : String
  operationId : Option String
  original_name : String
  inputSchema : InputSchema
deriving DecidableEq

/-- The descriptor built for one enumerated entry (source lines 78-105). -/
def mkDesc (cfg : Config) (e : Entry) : FuncDesc :=
  { name := entryName cfg e
    description := e.2.2.summary.getD (e.2.2.descr.getD "No description provided.")
    path := e.1
    method := upperStr e.2.1
    operationId := e.2.2.operationId
    original_name := mkRawName e.2.1 e.1
    inputSchema := deriveSchema e.2.2.parameters }

/-- The registry fold of `list_functions`: insert each entry's descriptor
unless its (prefixed) name was already registered (source lines 75-77,
"Skipping duplicate tool name"), preserving insertion order. -/
def registryGo (cfg : Config) (acc : List FuncDesc) : List Entry → List FuncDesc
  | [] => acc
  | e :: rest =>
    if ∃ d0 ∈ acc, d0.name = entryName cfg e then registryGo cfg acc rest
    else registryGo cfg (acc ++ [mkDesc cfg e]) rest

/-- `list_functions` (source lines 30-108): returns the JSON array of tool
descriptors; an unconfigured spec location, a failed fetch, or a spec
without paths each yield the empty array (never an error object). The
`fetched` argument is the Spec Accessor's result for the configured URL. -/
def list_functions (cfg : Config) (fetched : Option SpecDoc) : List FuncDesc :=
  match cfg.specUrl with
  | none => []
  | some _ =>
    match fetched with
    | none => []
    | some spec =>
      if spec.paths.isEmpty then []
      else registryGo cfg [] (listEntries cfg spec.paths)

/-- The result of `call_function`, one constructor per `return` site of the
source: each `json.dumps({"error": ...})` is an error constructor and a
successful dispatch is `request` with the components of the outbound HTTP
request (the upstream response itself is external). -/
inductive CallResult where
  | errEmptyName
  | errNoSpecUrl
  | errFetchFailed
  | errNotFound (fn : String)
  | errAccessDenied (fn : String)
  | errNoBaseUrl
  | errMissingPathParams (missing : List String)
  | request (method url : String) (headers : List (String × String))
      (query : ParamDict) (body : Option ParamDict)
deriving DecidableEq

/-- First-match lookup of `call_function` over the flattened enumeration
(source lines 132-153: first path in document order, first method in
declaration order whose derived name equals the requested one). -/
def findEntry (cfg : Config) (fn : String) : List Entry → Option Entry
  | [] => none
  | e :: rest => if entryName cfg e = fn then some e else findEntry cfg fn rest

/-- The function-definition lookup of `call_function`. -/
def findFunctionDef (cfg : Config) (paths : List (String × PathItem)) (fn : String) :
    Option Entry :=
  findEntry cfg fn (callEntries paths)

/-- Source line 160: `operation["method"] = function_def["method"]`. -/
def setOpMethod (op : Operation) (m : String) : Operation :=
  { op with methodField := some m }

/-- The placeholder `"\x7bname\x7d"` replaced in the URL (line 196). -/
def placeholder (n : String) : String :=
  "\x7b" ++ n ++ "\x7d"

/-- Names of the parameters declared `in: path` (source lines 183-185). -/
def pathParamNames (op : Operation) : List String :=
  (op.parameters.filter (fun p => p.loc = some "path")).map (fun p => p.name)

/-- Names of the required path parameters absent from the caller mapping
(source lines 187-190). -/
def missingRequiredPathParams (op : Operation) (d : ParamDict) : List String :=
  (op.parameters.filter (fun p =>
    p.loc = some "path" ∧ p.required.getD false ∧ hasKey d p.name = false)).map
    (fun p => p.name)

/-- The `stream` flag removal (source lines 181-182): deleted only when
present with a truthy value. -/
def streamStrip (d : ParamDict) : ParamDict :=
  match lookupD d "stream" with
  | some v => if truthy v then removeKey d "stream" else d
  | none => d

/-- Path-parameter substitution loop (source lines 194-197): for each
declared path parameter present in the mapping, replace its placeholder in
the URL with the value's `str()` form and pop it from the mapping. -/
def applyPathParams : String → ParamDict → List String → String × ParamDict
  | url, d, [] => (url, d)
  | url, d, n :: rest =>
    match lookupD d n with
    | some v => applyPathParams (strReplace url (placeholder n) (pyStr v)) (removeKey d n) rest
    | none => applyPathParams url d rest

/-- Reference characterization of the substituted URL: each declared path
parameter's placeholder is replaced, in declaration order, by the `str()`
form of its value in the original (pre-substitution) mapping. -/
def substFold (d : ParamDict) : String → List String → String
  | url, [] => url
  | url, n :: rest =>
    match lookupD d n with
    | some w => substFold d (strReplace url (placeholder n) (pyStr w)) rest
    | none => substFold d url rest

/-- `f"\x7bbase_url.rstrip('/')\x7d/\x7bpath.lstrip('/')\x7d"` (line 176). -/
def mkApiUrl (base path : String) : String :=
  rstripSlash base ++ "/" ++ lstripSlash path

/-- The request-construction tail of `call_function` (source lines 175-214),
after the whitelist and base-URL gates: missing-required-path-parameter
check, placeholder substitution, then method-based placement (query
parameters for `GET`, JSON body otherwise). -/
def buildRequest (headers : List (String × String)) (base p mUp : String)
    (op : Operation) (d1 : ParamDict) : CallResult :=
  let apiUrl := mkApiUrl base p
  let d2 := streamStrip d1
  let names := pathParamNames op
  let missing := missingRequiredPathParams op d2
  if names.isEmpty = false ∧ missing.isEmpty = false then
    CallResult.errMissingPathParams missing
  else
    let pr := applyPathParams apiUrl d2 names
    if mUp = "GET" then CallResult.request mUp pr.1 headers pr.2 none
    else CallResult.request mUp pr.1 headers [] (some pr.2)

/-- The headers of a dispatched request (source lines 161-164): the auth
headers for the method-augmented operation, plus `Content-Type` when the
resolved method is not `GET`. -/
def headersFor (cfg : Config) (op : Operation) (mUp : String) : List (String × String) :=
  let h0 := handle_auth cfg.apiKey (setOpMethod op mUp)
  if mUp ≠ "GET" then h0 ++ [("Content-Type", "application/json")] else h0

/-- The dispatch tail of `call_function` once a function definition is
matched (source lines 159-214): method-key write (mirrored by
`spec_after_call`), auth headers, parameter sanitization, `Content-Type`
for non-`GET`, whitelist re-check, base URL, then `buildRequest`. -/
def dispatchWithDef (cfg : Config) (spec : SpecDoc) (fn : String)
    (params : Option ParamDict) (p mr : String) (op : Operation) : CallResult :=
  let mUp := upperStr mr
  let headers := headersFor cfg op mUp
  let d1 := strip_parameters cfg.stripKey params
  if is_tool_whitelisted cfg.whitelist p = false then CallResult.errAccessDenied fn
  else
    match build_base_url cfg spec with
    | none => CallResult.errNoBaseUrl
    | some base => buildRequest headers base p mUp op d1

/-- `call_function` (source lines 110-220): empty-name guard, spec-location
guard, fetch guard, first-match lookup, then dispatch. -/
def call_function (cfg : Config) (fetched : Option SpecDoc) (fn : String)
    (params : Option ParamDict) : CallResult :=
  if fn = "" then CallResult.errEmptyName
  else
    match cfg.specUrl with
    | none => CallResult.errNoSpecUrl
    | some _ =>
      match fetched with
      | none => CallResult.errFetchFailed
      | some spec =>
        match findFunctionDef cfg spec.paths fn with
        | none => CallResult.errNotFound fn
        | some e => dispatchWithDef cfg spec fn params e.1 e.2.1 e.2.2

/-- Update of one path item by the method-key write of source line 160:
the first supported-method operation whose derived name matches gets its
`"method"` key set to the uppercase method; `none` when no entry of this
item matches. -/
def updateItem (cfg : Config) (fn path : String) : PathItem → Option PathItem
  | [] => none
  | (m, op) :: rest =>
    if methodSupported m ∧ toolName cfg m path = fn then
      some ((m, setOpMethod op (upperStr m)) :: rest)
    else
      match updateItem cfg fn path rest with
      | some rest' => some ((m, op) :: rest')
      | none => none

/-- Update of the paths mapping by the method-key write: only the first
path item containing a matching operation changes. -/
def updatePaths (cfg : Config) (fn : String) : List (String × PathItem) → List (String × PathItem)
  | [] => []
  | (p, item) :: rest =>
    match updateItem cfg fn p item with
    | some item' => (p, item') :: rest
    | none => (p, item) :: updatePaths cfg fn rest

/-- The state of the fetched document after `call_function` returns: the
in-place mutation `operation["method"] = function_def["method"]` (source
line 160) happens exactly when the lookup succeeds, before any later error
check; every other part of the document is only read. -/
def spec_after_call (cfg : Config) (fetched : Option SpecDoc) (fn : String) :
    Option SpecDoc :=
  if fn = "" then fetched
  else
    match cfg.specUrl with
    | none => fetched
    | some _ =>
      match fetched with
      | none => none
      | some spec => some { spec with paths := updatePaths cfg fn spec.paths }

/-- Python `repr` of a list of strings, `f"\x7bmissing_required\x7d"` in the
error message of source line 193. -/
def pyListReprAux : List String → String
  | [] => ""
  | [x] => "\x27" ++ x ++ "\x27"
  | x :: rest => "\x27" ++ x ++ "\x27" ++ ", " ++ pyListReprAux rest

/-- Python `repr` of a list of strings. -/
def pyListRepr (l : List String) : String :=
  "[" ++ pyListReprAux l ++ "]"

/-- JSON error object `json.dumps({"error": msg})`. -/
def jsonErr (msg : String) : String :=
  "\x7b\"error\": \"" ++ msg ++ "\"\x7d"

/-- The exact string payload each result of `call_function` renders to
(`none` for a successful dispatch, whose payload is the upstream response
text and external to this core). -/
def renderResult : CallResult → Option String
  | .errEmptyName => some (jsonErr "function_name is required")
  | .errNoSpecUrl => some (jsonErr "OPENAPI_SPEC_URL is not configured")
  | .errFetchFailed => some (jsonErr "Failed to fetch or parse the OpenAPI specification")
  | .errNotFound fn => some (jsonErr ("Function \x27" ++ fn ++ "\x27 not found"))
  | .errAccessDenied fn => some (jsonErr ("Access to function \x27" ++ fn ++ "\x27 is not allowed"))
  | .errNoBaseUrl => some (jsonErr "No base URL defined in spec or SERVER_URL_OVERRIDE")
  | .errMissingPathParams missing =>
      some (jsonErr ("Missing required path parameters: " ++ pyListRepr missing))
  | .request _ _ _ _ _ => none

/-! Concrete fixtures used by the witnesses and counterexamples below. -/

/-- An operation with no declared parameters and no documentation. -/
def opEmpty : Operation :=
  ⟨none, none, none, [], none⟩

/-- An operation declaring the single required path parameter `id`. -/
def opId : Operation :=
  ⟨some "Fetch one item", none, some "getItem", [⟨"id", some "path", some "integer", some true, none⟩], none⟩

/-- An operation declaring `stream` as a required path parameter. -/
def opStreamPath : Operation :=
  ⟨none, none, none, [⟨"stream", some "path", none, some true, none⟩], none⟩

/-- A baseline configuration: spec URL set, no whitelist, no prefix, no strip
key, no credential, base-URL override `http://h`. -/
def cfgBase : Config :=
  ⟨some "https://example.com/spec.json", none, none, none, none, some "http://h"⟩

/-- The baseline configuration restricted to the whitelist entry `/a/`. -/
def cfgWl : Config :=
  { cfgBase with whitelist := some "/a/" }

/-- Two distinct paths normalizing to the same tool name `get__a_b`, the
whitelist-excluded one first in document order. -/
def specCollide1 : SpecDoc :=
  ⟨[("/a_b", [("get", opEmpty)]), ("/a/b", [("get", opEmpty)])], none⟩

/-- The same two colliding paths with the whitelisted one first. -/
def specCollide2 : SpecDoc :=
  ⟨[("/a/b", [("get", opEmpty)]), ("/a_b", [("get", opEmpty)])], none⟩

/-- A one-operation document on the parameterless path `/x`. -/
def specPlain : SpecDoc :=
  ⟨[("/x", [("get", opEmpty)])], none⟩

/-- A document whose one operation has the path parameter `stream`. -/
def specStream : SpecDoc :=
  ⟨[("/x/\x7bstream\x7d", [("get", opStreamPath)])], none⟩

/-- A document with the `GET /items/\x7bid\x7d` operation of `opId`. -/
def specItems : SpecDoc :=
  ⟨[("/items/\x7bid\x7d", [("get", opId)])], none⟩

/-! Lemmas about the registry fold of `list_functions`. -/

/-- The name of a built descriptor is the entry's derived tool name. -/
theorem mkDesc_name (cfg : Config) (e : Entry) : (mkDesc cfg e).name = entryName cfg e :=
  rfl

/-- The registry fold only ever appends to its accumulator. -/
theorem registryGo_sub (cfg : Config) (l : List Entry) (acc : List FuncDesc)
    (d : FuncDesc) (hd : d ∈ acc) : d ∈ registryGo cfg acc l := by
  induction l generalizing acc with
  | nil => simpa [registryGo] using hd
  | cons e rest ih =>
    simp only [registryGo]
    by_cases h : ∃ d0 ∈ acc, d0.name = entryName cfg e
    · rw [if_pos h]; exact ih acc hd
    · rw [if_neg h]; exact ih _ (List.mem_append_left _ hd)

/-- Every descriptor produced by the registry fold comes from the first
enumerated entry bearing its name. -/
theorem registryGo_mem (cfg : Config) (l : List Entry) (acc : List FuncDesc)
    (d : FuncDesc) (hd : d ∈ registryGo cfg acc l) :
    d ∈ acc ∨ ∃ l1 e l2, l = l1 ++ e :: l2 ∧ d = mkDesc cfg e ∧
      (¬ ∃ d0 ∈ acc, d0.name = entryName cfg e) ∧
      (∀ e2 ∈ l1, entryName cfg e2 ≠ entryName cfg e) := by
  induction l generalizing acc with
  | nil => left; simpa [registryGo] using hd
  | cons e rest ih =>
    simp only [registryGo] at hd
    by_cases h : ∃ d0 ∈ acc, d0.name = entryName cfg e
    · rw [if_pos h] at hd
      rcases ih acc hd with hacc | ⟨l1, e1, l2, heq, hdm, hnot, hfirst⟩
      · exact Or.inl hacc
      · refine Or.inr ⟨e :: l1, e1, l2, by simp [heq], hdm, hnot, ?_⟩
        intro e2 he2
        rcases List.mem_cons.mp he2 with rfl | he2
        · intro hne
          exact hnot (hne ▸ h)
        · exact hfirst e2 he2
    · rw [if_neg h] at hd
      rcases ih _ hd with hacc | ⟨l1, e1, l2, heq, hdm, hnot, hfirst⟩
      · rcases List.mem_append.mp hacc with h1 | h2
        · exact Or.inl h1
        · simp only [List.mem_singleton] at h2
          exact Or.inr ⟨[], e, rest, rfl, h2, h, by simp⟩
      · refine Or.inr ⟨e :: l1, e1, l2, by simp [heq], hdm, ?_, ?_⟩
        · intro ⟨d0, hd0, hname⟩
          exact hnot ⟨d0, List.mem_append_left _ hd0, hname⟩
        · intro e2 he2
          rcases List.mem_cons.mp he2 with rfl | he2
          · intro hne
            exact hnot ⟨mkDesc cfg e2, by simp, hne⟩
          · exact hfirst e2 he2

/-- The first enumerated entry bearing a fresh name contributes its
descriptor to the registry fold's output. -/
theorem registryGo_first_mem (cfg : Config) (l1 : List Entry) (e : Entry) (l2 : List Entry)
    (acc : List FuncDesc)
    (hfirst : ∀ e2 ∈ l1, entryName cfg e2 ≠ entryName cfg e)
    (hacc : ¬ ∃ d0 ∈ acc, d0.name = entryName cfg e) :
    mkDesc cfg e ∈ registryGo cfg acc (l1 ++ e :: l2) := by
  induction l1 generalizing acc with
  | nil =>
    simp only [List.nil_append, registryGo]
    rw [if_neg hacc]
    exact registryGo_sub cfg l2 _ _ (by simp)
  | cons e1 rest ih =>
    simp only [List.cons_append, registryGo]
    by_cases h : ∃ d0 ∈ acc, d0.name = entryName cfg e1
    · rw [if_pos h]
      exact ih acc (fun e2 he2 => hfirst e2 (List.mem_cons_of_mem _ he2)) hacc
    · rw [if_neg h]
      refine ih _ (fun e2 he2 => hfirst e2 (List.mem_cons_of_mem _ he2)) ?_
      intro ⟨d0, hd0, hname⟩
      rcases List.mem_append.mp hd0 with h1 | h2
      · exact hacc ⟨d0, h1, hname⟩
      · simp only [List.mem_singleton] at h2
        subst h2
        exact hfirst e1 (List.mem_cons_self _ _) hname

/-- The registry fold keeps descriptor names pairwise distinct. -/
theorem registryGo_nodup (cfg : Config) (l : List Entry) (acc : List FuncDesc)
    (hacc : (acc.map (fun d => d.name)).Nodup) :
    ((registryGo cfg acc l).map (fun d => d.name)).Nodup := by
  induction l generalizing acc with
  | nil => simpa [registryGo] using hacc
  | cons e rest ih =>
    simp only [registryGo]
    by_cases h : ∃ d0 ∈ acc, d0.name = entryName cfg e
    · rw [if_pos h]; exact ih acc hacc
    · rw [if_neg h]
      refine ih _ ?_
      simp only [List.map_append, List.map_cons, List.map_nil]
      rw [List.nodup_append]
      refine ⟨hacc, List.nodup_singleton _, ?_⟩
      intro a ha hb
      simp only [List.mem_singleton] at hb
      subst hb
      obtain ⟨d0, hd0, hname⟩ := List.mem_map.mp ha
      exact h ⟨d0, hd0, hname⟩

/-! Lemmas about the two enumerations. -/

/-- Every entry the listing enumerates is also enumerated by dispatch (the
dispatch loop drops the whitelist filter). -/
theorem mem_listEntries_mem_callEntries (cfg : Config) (paths : List (String × PathItem))
    (e : Entry) (he : e ∈ listEntries cfg paths) : e ∈ callEntries paths := by
  induction paths with
  | nil => simp [listEntries] at he
  | cons pi rest ih =>
    obtain ⟨p, item⟩ := pi
    simp only [listEntries] at he
    simp only [callEntries]
    rcases List.mem_append.mp he with h1 | h2
    · by_cases hw : is_tool_whitelisted cfg.whitelist p
      · rw [if_pos hw] at h1
        exact List.mem_append_left _ h1
      · rw [if_neg hw] at h1
        simp at h1
    · exact List.mem_append_right _ (ih h2)

/-- First-match lookup over an appended enumeration. -/
theorem findEntry_append (cfg : Config) (fn : String) (l1 l2 : List Entry) :
    findEntry cfg fn (l1 ++ l2) =
      match findEntry cfg fn l1 with
      | some e => some e
      | none => findEntry cfg fn l2 := by
  induction l1 with
  | nil => simp [findEntry]
  | cons e rest ih =>
    by_cases h : entryName cfg e = fn
    · simp [findEntry, h]
    · simp [findEntry, h, ih]

/-- A membership with the right name makes the first-match lookup succeed. -/
theorem findEntry_isSome_of_mem (cfg : Config) (fn : String) (l : List Entry)
    (e : Entry) (he : e ∈ l) (hn : entryName cfg e = fn) :
    ∃ e2, findEntry cfg fn l = some e2 := by
  induction l with
  | nil => cases he
  | cons e1 rest ih =>
    by_cases h : entryName cfg e1 = fn
    · exact ⟨e1, by simp [findEntry, h]⟩
    · rcases List.mem_cons.mp he with rfl | hmem
      · exact absurd hn h
      · simpa [findEntry, h] using ih hmem

/-- A successful first-match lookup returns a member with the right name. -/
theorem findEntry_some_mem (cfg : Config) (fn : String) (l : List Entry) (e : Entry)
    (h : findEntry cfg fn l = some e) : e ∈ l ∧ entryName cfg e = fn := by
  induction l with
  | nil => simp [findEntry] at h
  | cons e1 rest ih =>
    by_cases h1 : entryName cfg e1 = fn
    · simp only [findEntry, if_pos h1] at h
      cases h
      exact ⟨List.mem_cons_self _ _, h1⟩
    · simp only [findEntry, if_neg h1] at h
      obtain ⟨hm, hn⟩ := ih h
      exact ⟨List.mem_cons_of_mem _ hm, hn⟩

/-! Lemmas about the parameter mapping and the substitution loop. -/

/-- Popping one key leaves all other keys' bindings intact. -/
theorem lookupD_removeKey_ne (d : ParamDict) (n k : String) (h : k ≠ n) :
    lookupD (removeKey d n) k = lookupD d k := by
  induction d with
  | nil => rfl
  | cons kv rest ih =>
    obtain ⟨k1, v1⟩ := kv
    by_cases h1 : k1 = n
    · rw [removeKey, if_pos h1, ih, lookupD, if_neg (fun hc => h (h1 ▸ hc).symm)]
    · simp only [removeKey, if_neg h1, lookupD]
      by_cases h2 : k1 = k
      · rw [if_pos h2, if_pos h2]
      · rw [if_neg h2, if_neg h2]
        exact ih

/-- Popping a key removes its binding. -/
theorem lookupD_removeKey_self (d : ParamDict) (n : String) :
    lookupD (removeKey d n) n = none := by
  induction d with
  | nil => rfl
  | cons kv rest ih =>
    obtain ⟨k1, v1⟩ := kv
    by_cases h1 : k1 = n
    · simpa [removeKey, h1] using ih
    · simp only [removeKey, if_neg h1, lookupD, if_neg h1]
      exact ih

/-- Popping cannot create a key. -/
theorem hasKey_removeKey_of_not (d : ParamDict) (n k : String)
    (h : hasKey d k = false) : hasKey (removeKey d n) k = false := by
  by_cases hk : k = n
  · subst hk
    simp [hasKey, lookupD_removeKey_self]
  · simp only [hasKey, lookupD_removeKey_ne d n k hk]
    simpa [hasKey] using h

/-- The substitution loop cannot create a key. -/
theorem applyPathParams_absent (names : List String) (url : String) (d : ParamDict)
    (k : String) (h : hasKey d k = false) :
    hasKey (applyPathParams url d names).2 k = false := by
  induction names generalizing url d with
  | nil => simpa [applyPathParams] using h
  | cons n rest ih =>
    simp only [applyPathParams]
    cases hv : lookupD d n with
    | none => exact ih _ _ h
    | some v => exact ih _ _ (hasKey_removeKey_of_not d n k h)

/-- After the substitution loop no declared path parameter remains in the
mapping. -/
theorem applyPathParams_removes (names : List String) (url : String) (d : ParamDict)
    (n : String) (hn : n ∈ names) :
    hasKey (applyPathParams url d names).2 n = false := by
  induction names generalizing url d with
  | nil => cases hn
  | cons m rest ih =>
    simp only [applyPathParams]
    cases hv : lookupD d m with
    | none =>
      rcases List.mem_cons.mp hn with rfl | hmem
      · exact applyPathParams_absent rest _ _ _ (by simp [hasKey, hv])
      · exact ih _ _ hmem
    | some v =>
      rcases List.mem_cons.mp hn with rfl | hmem
      · exact applyPathParams_absent rest _ _ _ (by simp [hasKey, lookupD_removeKey_self])
      · exact ih _ _ hmem

/-- The substitution loop leaves non-path keys' bindings intact. -/
theorem applyPathParams_other (names : List String) (url : String) (d : ParamDict)
    (k : String) (hk : k ∉ names) :
    lookupD (applyPathParams url d names).2 k = lookupD d k := by
  induction names generalizing url d with
  | nil => rfl
  | cons n rest ih =>
    simp only [applyPathParams]
    have hkn : k ≠ n := fun h => hk (h ▸ List.mem_cons_self n rest)
    have hkrest : k ∉ rest := fun h => hk (List.mem_cons_of_mem _ h)
    cases hv : lookupD d n with
    | none => exact ih _ _ hkrest
    | some v => rw [ih _ _ hkrest, lookupD_removeKey_ne d n k hkn]

/-- `substFold` only consults the bindings of the names it folds over. -/
theorem substFold_congr (names : List String) (d1 d2 : ParamDict) (url : String)
    (h : ∀ nm ∈ names, lookupD d1 nm = lookupD d2 nm) :
    substFold d1 url names = substFold d2 url names := by
  induction names generalizing url with
  | nil => rfl
  | cons n rest ih =>
    simp only [substFold]
    rw [h n (List.mem_cons_self n rest)]
    cases lookupD d2 n with
    | none => exact ih _ (fun nm hm => h nm (List.mem_cons_of_mem _ hm))
    | some w => exact ih _ (fun nm hm => h nm (List.mem_cons_of_mem _ hm))

/-- With pairwise distinct declared path-parameter names, the URL the
substitution loop produces replaces each placeholder by the value bound in
the original mapping, in declaration order. -/
theorem applyPathParams_fst (names : List String) (url : String) (d : ParamDict)
    (hnd : names.Nodup) :
    (applyPathParams url d names).1 = substFold d url names := by
  induction names generalizing url d with
  | nil => rfl
  | cons n rest ih =>
    have hnotin : n ∉ rest := (List.nodup_cons.mp hnd).1
    have hrest : rest.Nodup := (List.nodup_cons.mp hnd).2
    simp only [applyPathParams, substFold]
    cases hv : lookupD d n with
    | none => exact ih _ _ hrest
    | some v =>
      rw [ih _ _ hrest]
      exact substFold_congr rest _ _ _
        (fun nm hm => lookupD_removeKey_ne d n nm (fun hc => hnotin (hc ▸ hm)))

/-! Unfolding lemmas for `call_function`. -/

/-- With a configured spec URL, a fetched document and a successful lookup,
`call_function` runs the dispatch tail on the matched entry. -/
theorem call_function_dispatch (cfg : Config) (spec : SpecDoc) (u fn : String)
    (params : Option ParamDict) (e : Entry)
    (hfn : fn ≠ "") (hurl : cfg.specUrl = some u)
    (hfind : findFunctionDef cfg spec.paths fn = some e) :
    call_function cfg (some spec) fn params =
      dispatchWithDef cfg spec fn params e.1 e.2.1 e.2.2 := by
  simp only [call_function, if_neg hfn, hurl, hfind]

/-- A whitelisted matched path with a usable base URL dispatches into the
request-construction tail. -/
theorem dispatchWithDef_request (cfg : Config) (spec : SpecDoc) (fn : String)
    (params : Option ParamDict) (p mr base : String) (op : Operation)
    (hwl : is_tool_whitelisted cfg.whitelist p = true)
    (hbase : build_base_url cfg spec = some base) :
    dispatchWithDef cfg spec fn params p mr op =
      buildRequest (headersFor cfg op (upperStr mr)) base p (upperStr mr) op
        (strip_parameters cfg.stripKey params) := by
  simp only [dispatchWithDef, hwl, hbase]
  simp

/-- A non-whitelisted matched path is rejected with the access-denied
error. -/
theorem dispatchWithDef_denied (cfg : Config) (spec : SpecDoc) (fn : String)
    (params : Option ParamDict) (p mr : String) (op : Operation)
    (hwl : is_tool_whitelisted cfg.whitelist p = false) :
    dispatchWithDef cfg spec fn params p mr op = CallResult.errAccessDenied fn := by
  simp only [dispatchWithDef, hwl]
  simp

/-- A nonempty set of missing required path parameters aborts the request
construction with the error naming them. -/
theorem buildRequest_missing (headers : List (String × String)) (base p mUp : String)
    (op : Operation) (d1 : ParamDict)
    (hne : (pathParamNames op).isEmpty = false)
    (hm : (missingRequiredPathParams op (streamStrip d1)).isEmpty = false) :
    buildRequest headers base p mUp op d1 =
      CallResult.errMissingPathParams (missingRequiredPathParams op (streamStrip d1)) := by
  simp only [buildRequest]
  rw [if_pos ⟨hne, hm⟩]

/-- Without missing required path parameters the request is built, with
method-based placement of the remaining mapping. -/
theorem buildRequest_success (headers : List (String × String)) (base p mUp : String)
    (op : Operation) (d1 : ParamDict)
    (h : ¬((pathParamNames op).isEmpty = false ∧
        (missingRequiredPathParams op (streamStrip d1)).isEmpty = false)) :
    buildRequest headers base p mUp op d1 =
      (if mUp = "GET" then
        CallResult.request mUp
          (applyPathParams (mkApiUrl base p) (streamStrip d1) (pathParamNames op)).1 headers
          (applyPathParams (mkApiUrl base p) (streamStrip d1) (pathParamNames op)).2 none
      else
        CallResult.request mUp
          (applyPathParams (mkApiUrl base p) (streamStrip d1) (pathParamNames op)).1 headers
          [] (some (applyPathParams (mkApiUrl base p) (streamStrip d1) (pathParamNames op)).2)) := by
  simp only [buildRequest]
  rw [if_neg h]

/-! Lemmas about the derived input schema. -/

/-- The fold collects into `required` exactly the names of the parameters
whose `required` flag is true, in declaration order. -/
theorem deriveSchemaAux_required (params : List Param) (sch : InputSchema) :
    (deriveSchemaAux sch params).required =
      sch.required ++ (params.filter (fun p => p.required.getD false)).map (fun p => p.name) := by
  induction params generalizing sch with
  | nil => simp [deriveSchemaAux]
  | cons p rest ih =>
    simp only [deriveSchemaAux, List.filter_cons]
    by_cases h : p.required.getD false = true
    · rw [ih]
      simp [addParam, h]
    · rw [ih]
      simp [addParam, h]

/-- Dict insertion binds the inserted name to the inserted entry. -/
theorem propLookup_dictInsert_self (props : List SchemaProp) (pr : SchemaProp) :
    propLookup (dictInsert props pr) pr.name = some pr := by
  induction props with
  | nil => simp [dictInsert, propLookup]
  | cons q rest ih =>
    by_cases h : q.name = pr.name
    · simp [dictInsert, h, propLookup]
    · simp [dictInsert, h, propLookup, ih]

/-- Dict insertion leaves other names' bindings intact. -/
theorem propLookup_dictInsert_ne (props : List SchemaProp) (pr : SchemaProp) (n : String)
    (h : pr.name ≠ n) : propLookup (dictInsert props pr) n = propLookup props n := by
  induction props with
  | nil => simp [dictInsert, propLookup, h]
  | cons q rest ih =>
    simp only [dictInsert]
    by_cases hq : q.name = pr.name
    · rw [if_pos hq]
      simp only [propLookup]
      rw [if_neg h, if_neg (fun hc => h (hq ▸ hc))]
    · rw [if_neg hq]
      simp only [propLookup]
      by_cases hqn : q.name = n
      · rw [if_pos hqn, if_pos hqn]
      · rw [if_neg hqn, if_neg hqn]
        exact ih

/-- Folding parameters whose names all differ from `n` does not change the
binding of `n`. -/
theorem deriveSchemaAux_lookup_preserved (params : List Param) (sch : InputSchema)
    (n : String) (h : ∀ r ∈ params, r.name ≠ n) :
    propLookup (deriveSchemaAux sch params).properties n = propLookup sch.properties n := by
  induction params generalizing sch with
  | nil => rfl
  | cons p rest ih =>
    simp only [deriveSchemaAux]
    rw [ih _ (fun r hr => h r (List.mem_cons_of_mem _ hr))]
    simp only [addParam]
    exact propLookup_dictInsert_ne _ _ _ (h p (List.mem_cons_self _ _))

/-- With pairwise distinct parameter names, every declared parameter ends up
bound to its normalized type and defaulted description. -/
theorem deriveSchemaAux_lookup (params : List Param) (sch : InputSchema) (p : Param)
    (hp : p ∈ params) (hnd : (params.map (fun q => q.name)).Nodup) :
    propLookup (deriveSchemaAux sch params).properties p.name =
      some ⟨p.name, normType p, paramDescription p⟩ := by
  induction params generalizing sch with
  | nil => cases hp
  | cons q rest ih =>
    simp only [List.map_cons, List.nodup_cons] at hnd
    simp only [deriveSchemaAux]
    rcases List.mem_cons.mp hp with rfl | hmem
    · have hrest : ∀ r ∈ rest, r.name ≠ p.name := by
        intro r hr hc
        exact hnd.1 (hc ▸ List.mem_map.mpr ⟨r, hr, rfl⟩)
      rw [deriveSchemaAux_lookup_preserved rest _ _ hrest]
      simp only [addParam]
      exact propLookup_dictInsert_self _ _
    · exact ih _ hmem hnd.2

/-- With pairwise distinct parameter names, a name is in the required list
iff its parameter's `required` flag is true. -/
theorem deriveSchema_required_iff (params : List Param) (p : Param)
    (hp : p ∈ params) (hnd : (params.map (fun q => q.name)).Nodup) :
    p.name ∈ (deriveSchema params).required ↔ p.required.getD false = true := by
  rw [deriveSchema, deriveSchemaAux_required]
  simp only [List.nil_append]
  constructor
  · intro h
    obtain ⟨q, hq, hqname⟩ := List.mem_map.mp h
    have hqp : q ∈ params := List.mem_of_mem_filter hq
    have hflag : q.required.getD false = true := (List.mem_filter.mp hq).2
    have hquq : q = p := List.inj_on_of_nodup_map hnd hqp hp hqname
    exact hquq ▸ hflag
  · intro h
    exact List.mem_map.mpr ⟨p, List.mem_filter.mpr ⟨hp, h⟩, rfl⟩

/-! Lemmas relating the lookup to the method-key write. -/

/-- A hit in the first part of an appended enumeration wins. -/
theorem findEntry_append_some (cfg : Config) (fn : String) (l1 l2 : List Entry)
    (e : Entry) (h : findEntry cfg fn l1 = some e) :
    findEntry cfg fn (l1 ++ l2) = some e := by
  simp [findEntry_append, h]

/-- A miss in the first part of an appended enumeration defers to the
second. -/
theorem findEntry_append_none (cfg : Config) (fn : String) (l1 l2 : List Entry)
    (h : findEntry cfg fn l1 = none) :
    findEntry cfg fn (l1 ++ l2) = findEntry cfg fn l2 := by
  simp [findEntry_append, h]

/-- No lookup hit in a path item means no method-key write in it. -/
theorem updateItem_none (cfg : Config) (fn p : String) (item : PathItem)
    (h : findEntry cfg fn (itemEntries p item) = none) :
    updateItem cfg fn p item = none := by
  induction item with
  | nil => rfl
  | cons me rest ih =>
    obtain ⟨m, op⟩ := me
    by_cases hs : methodSupported m
    · simp only [itemEntries, if_pos hs, findEntry] at h
      by_cases hname : entryName cfg (p, m, op) = fn
      · rw [if_pos hname] at h
        cases h
      · rw [if_neg hname] at h
        simp only [updateItem]
        rw [if_neg (fun hc => hname hc.2)]
        simp [ih h]
    · simp only [itemEntries, if_neg hs] at h
      simp only [updateItem]
      rw [if_neg (fun hc => hs hc.1)]
      simp [ih h]

/-- A lookup hit in a path item decomposes it, and the method-key write
replaces exactly the matched operation. -/
theorem updateItem_some (cfg : Config) (fn p : String) (item : PathItem) (e : Entry)
    (h : findEntry cfg fn (itemEntries p item) = some e) :
    e.1 = p ∧ ∃ it1 it2, item = it1 ++ (e.2.1, e.2.2) :: it2 ∧
      updateItem cfg fn p item =
        some (it1 ++ (e.2.1, setOpMethod e.2.2 (upperStr e.2.1)) :: it2) := by
  induction item with
  | nil => simp [itemEntries, findEntry] at h
  | cons me rest ih =>
    obtain ⟨m, op⟩ := me
    by_cases hs : methodSupported m
    · simp only [itemEntries, if_pos hs, findEntry] at h
      by_cases hname : entryName cfg (p, m, op) = fn
      · rw [if_pos hname] at h
        cases h
        refine ⟨rfl, [], rest, rfl, ?_⟩
        simp only [updateItem]
        rw [if_pos ⟨hs, hname⟩]
        rfl
      · rw [if_neg hname] at h
        obtain ⟨hep, it1, it2, heq, hupd⟩ := ih h
        refine ⟨hep, (m, op) :: it1, it2, by simp [heq], ?_⟩
        simp only [updateItem]
        rw [if_neg (fun hc => hname hc.2), hupd]
        rfl
    · simp only [itemEntries, if_neg hs] at h
      obtain ⟨hep, it1, it2, heq, hupd⟩ := ih h
      refine ⟨hep, (m, op) :: it1, it2, by simp [heq], ?_⟩
      simp only [updateItem]
      rw [if_neg (fun hc => hs hc.1), hupd]
      rfl

/-- No lookup hit anywhere means the document is unchanged. -/
theorem updatePaths_none (cfg : Config) (fn : String) (paths : List (String × PathItem))
    (h : findEntry cfg fn (callEntries paths) = none) :
    updatePaths cfg fn paths = paths := by
  induction paths with
  | nil => rfl
  | cons pi rest ih =>
    obtain ⟨p, item⟩ := pi
    simp only [callEntries] at h
    cases hfi : findEntry cfg fn (itemEntries p item) with
    | some e1 =>
      rw [findEntry_append_some cfg fn _ _ _ hfi] at h
      cases h
    | none =>
      rw [findEntry_append_none cfg fn _ _ hfi] at h
      simp only [updatePaths]
      rw [updateItem_none cfg fn p item hfi]
      simp [ih h]

/-- A lookup hit decomposes the document, and the method-key write replaces
exactly the matched operation, leaving every other path, operation and
field unchanged. -/
theorem updatePaths_some (cfg : Config) (fn : String) (paths : List (String × PathItem))
    (e : Entry) (h : findEntry cfg fn (callEntries paths) = some e) :
    ∃ paths1 item1 item2 paths2,
      paths = paths1 ++ (e.1, item1 ++ (e.2.1, e.2.2) :: item2) :: paths2 ∧
      updatePaths cfg fn paths =
        paths1 ++ (e.1, item1 ++ (e.2.1, setOpMethod e.2.2 (upperStr e.2.1)) :: item2) :: paths2 := by
  induction paths with
  | nil => simp [callEntries, findEntry] at h
  | cons pi rest ih =>
    obtain ⟨p, item⟩ := pi
    simp only [callEntries] at h
    cases hfi : findEntry cfg fn (itemEntries p item) with
    | some e1 =>
      rw [findEntry_append_some cfg fn _ _ _ hfi] at h
      obtain rfl : e1 = e := Option.some.inj h
      obtain ⟨hep, it1, it2, heq, hupd⟩ := updateItem_some cfg fn p item e1 hfi
      refine ⟨[], it1, it2, rest, ?_, ?_⟩
      · simp [heq, hep]
      · simp only [updatePaths]
        rw [hupd]
        simp [hep]
    | none =>
      rw [findEntry_append_none cfg fn _ _ hfi] at h
      obtain ⟨paths1, it1, it2, paths2, heq, hupd⟩ := ih h
      refine ⟨(p, item) :: paths1, it1, it2, paths2, by simp [heq], ?_⟩
      simp only [updatePaths]
      rw [updateItem_none cfg fn p item hfi, hupd]
      rfl

/-! Lemma about the rendered missing-parameter message. -/

/-- Every name in the rendered Python list repr occurs literally in it. -/
theorem pyListReprAux_mem (l : List String) (a : String) (ha : a ∈ l) :
    ∃ pre post, pyListReprAux l = pre ++ a ++ post := by
  induction l with
  | nil => cases ha
  | cons x rest ih =>
    rcases List.mem_cons.mp ha with rfl | hmem
    · cases rest with
      | nil =>
        exact ⟨"\x27", "\x27", by simp [pyListReprAux, String.append_assoc]⟩
      | cons y ys =>
        refine ⟨"\x27", "\x27" ++ ", " ++ pyListReprAux (y :: ys), ?_⟩
        show pyListReprAux (a :: y :: ys) = _
        simp [pyListReprAux, String.append_assoc]
    · cases rest with
      | nil => cases hmem
      | cons y ys =>
        obtain ⟨pre, post, hpp⟩ := ih hmem
        refine ⟨"\x27" ++ x ++ "\x27" ++ ", " ++ pre, post, ?_⟩
        show pyListReprAux (x :: y :: ys) = _
        simp [pyListReprAux, hpp, String.append_assoc]

/-- Every name in a missing-parameter list occurs literally in the rendered
JSON error payload. -/
theorem renderResult_missing_mentions (missing : List String) (a : String)
    (ha : a ∈ missing) :
    ∃ pre post,
      renderResult (CallResult.errMissingPathParams missing) = some (pre ++ a ++ post) := by
  obtain ⟨pre, post, hpp⟩ := pyListReprAux_mem missing a ha
  refine ⟨"\x7b\"error\": \"" ++ "Missing required path parameters: " ++ "[" ++ pre,
    post ++ "]" ++ "\"\x7d", ?_⟩
  simp only [renderResult, jsonErr, pyListRepr, hpp, String.append_assoc]

/-! Shape lemmas for the dispatch tail and the full request inversion. -/

/-- A list with a member is not empty. -/
theorem isEmpty_false_of_mem {α : Type} (l : List α) (a : α) (h : a ∈ l) :
    l.isEmpty = false := by
  cases l with
  | nil => cases h
  | cons x xs => rfl

/-- A whitelisted matched path without a usable base URL yields the
no-base-URL error. -/
theorem dispatchWithDef_nobase (cfg : Config) (spec : SpecDoc) (fn : String)
    (params : Option ParamDict) (p mr : String) (op : Operation)
    (hwl : is_tool_whitelisted cfg.whitelist p = true)
    (hbase : build_base_url cfg spec = none) :
    dispatchWithDef cfg spec fn params p mr op = CallResult.errNoBaseUrl := by
  simp only [dispatchWithDef, hwl, hbase]
  simp

/-- The dispatch tail never reports the tool not found. -/
theorem dispatchWithDef_ne_notFound (cfg : Config) (spec : SpecDoc) (fn : String)
    (params : Option ParamDict) (p mr : String) (op : Operation) (s : String) :
    dispatchWithDef cfg spec fn params p mr op ≠ CallResult.errNotFound s := by
  by_cases hwl : is_tool_whitelisted cfg.whitelist p = true
  · cases hbase : build_base_url cfg spec with
    | none => rw [dispatchWithDef_nobase cfg spec fn params p mr op hwl hbase]; intro hc; cases hc
    | some base =>
      rw [dispatchWithDef_request cfg spec fn params p mr base op hwl hbase]
      by_cases hmiss : (pathParamNames op).isEmpty = false ∧
          (missingRequiredPathParams op (streamStrip (strip_parameters cfg.stripKey params))).isEmpty = false
      · rw [buildRequest_missing _ _ _ _ _ _ hmiss.1 hmiss.2]
        intro hc; cases hc
      · rw [buildRequest_success _ _ _ _ _ _ hmiss]
        by_cases hm : upperStr mr = "GET"
        · rw [if_pos hm]; intro hc; cases hc
        · rw [if_neg hm]; intro hc; cases hc
  · have hwl2 : is_tool_whitelisted cfg.whitelist p = false := by
      revert hwl; cases is_tool_whitelisted cfg.whitelist p <;> simp
    rw [dispatchWithDef_denied cfg spec fn params p mr op hwl2]
    intro hc; cases hc

/-- A whitelisted matched path never yields the access-denied error. -/
theorem dispatchWithDef_not_denied (cfg : Config) (spec : SpecDoc) (fn : String)
    (params : Option ParamDict) (p mr : String) (op : Operation) (s : String)
    (hwl : is_tool_whitelisted cfg.whitelist p = true) :
    dispatchWithDef cfg spec fn params p mr op ≠ CallResult.errAccessDenied s := by
  cases hbase : build_base_url cfg spec with
  | none => rw [dispatchWithDef_nobase cfg spec fn params p mr op hwl hbase]; intro hc; cases hc
  | some base =>
    rw [dispatchWithDef_request cfg spec fn params p mr base op hwl hbase]
    by_cases hmiss : (pathParamNames op).isEmpty = false ∧
        (missingRequiredPathParams op (streamStrip (strip_parameters cfg.stripKey params))).isEmpty = false
    · rw [buildRequest_missing _ _ _ _ _ _ hmiss.1 hmiss.2]
      intro hc; cases hc
    · rw [buildRequest_success _ _ _ _ _ _ hmiss]
      by_cases hm : upperStr mr = "GET"
      · rw [if_pos hm]; intro hc; cases hc
      · rw [if_neg hm]; intro hc; cases hc

/-- Full inversion of a successful dispatch: a produced request pins down
the fetched document, the matched entry, the whitelist pass, the base URL,
the resolved method, the headers, the substituted URL and the method-based
placement of the remaining parameters. -/
theorem call_request_inversion (cfg : Config) (fetched : Option SpecDoc) (fn : String)
    (params : Option ParamDict) (m url : String) (hd : List (String × String))
    (q : ParamDict) (b : Option ParamDict)
    (h : call_function cfg fetched fn params = CallResult.request m url hd q b) :
    ∃ spec e base, fetched = some spec ∧
      findFunctionDef cfg spec.paths fn = some e ∧
      is_tool_whitelisted cfg.whitelist e.1 = true ∧
      build_base_url cfg spec = some base ∧
      m = upperStr e.2.1 ∧
      hd = headersFor cfg e.2.2 (upperStr e.2.1) ∧
      url = (applyPathParams (mkApiUrl base e.1)
        (streamStrip (strip_parameters cfg.stripKey params)) (pathParamNames e.2.2)).1 ∧
      ((m = "GET" ∧
        q = (applyPathParams (mkApiUrl base e.1)
          (streamStrip (strip_parameters cfg.stripKey params)) (pathParamNames e.2.2)).2 ∧
        b = none) ∨
       (m ≠ "GET" ∧ q = [] ∧
        b = some (applyPathParams (mkApiUrl base e.1)
          (streamStrip (strip_parameters cfg.stripKey params)) (pathParamNames e.2.2)).2)) := by
  by_cases hfn : fn = ""
  · simp [call_function, hfn] at h
  · cases hcu : cfg.specUrl with
    | none => simp [call_function, hfn, hcu] at h
    | some u =>
      cases fetched with
      | none => simp [call_function, hfn, hcu] at h
      | some spec =>
        cases hfind : findFunctionDef cfg spec.paths fn with
        | none => simp [call_function, hfn, hcu, hfind] at h
        | some e =>
          rw [call_function_dispatch cfg spec u fn params e hfn hcu hfind] at h
          by_cases hwl : is_tool_whitelisted cfg.whitelist e.1 = true
          · cases hbase : build_base_url cfg spec with
            | none =>
              rw [dispatchWithDef_nobase cfg spec fn params e.1 e.2.1 e.2.2 hwl hbase] at h
              cases h
            | some base =>
              rw [dispatchWithDef_request cfg spec fn params e.1 e.2.1 base e.2.2 hwl hbase] at h
              by_cases hmiss : (pathParamNames e.2.2).isEmpty = false ∧
                  (missingRequiredPathParams e.2.2
                    (streamStrip (strip_parameters cfg.stripKey params))).isEmpty = false
              · rw [buildRequest_missing _ _ _ _ _ _ hmiss.1 hmiss.2] at h
                cases h
              · rw [buildRequest_success _ _ _ _ _ _ hmiss] at h
                by_cases hm : upperStr e.2.1 = "GET"
                · rw [if_pos hm] at h
                  cases h
                  exact ⟨spec, e, base, rfl, hfind, hwl, hbase, rfl, rfl, rfl,
                    Or.inl ⟨hm, rfl, rfl⟩⟩
                · rw [if_neg hm] at h
                  cases h
                  exact ⟨spec, e, base, rfl, hfind, hwl, hbase, rfl, rfl, rfl,
                    Or.inr ⟨hm, rfl, rfl⟩⟩
          · have hwl2 : is_tool_whitelisted cfg.whitelist e.1 = false := by
              revert hwl; cases is_tool_whitelisted cfg.whitelist e.1 <;> simp
            rw [dispatchWithDef_denied cfg spec fn params e.1 e.2.1 e.2.2 hwl2] at h
            cases h

/-! The claims. -/

/-- C8: when the spec location is unconfigured, when the document cannot be
fetched or parsed, or when the fetched document has no paths section,
`list_functions` returns the empty array (it returns an array in every
case, never an error object); and under the same no-paths document,
`call_function` with any (nonempty) tool name returns the error stating the
function was not found. -/
theorem c8_empty_spec :
    (∀ cfg fetched, cfg.specUrl = none → list_functions cfg fetched = []) ∧
    (∀ cfg, list_functions cfg none = []) ∧
    (∀ cfg spec, spec.paths = [] → list_functions cfg (some spec) = []) ∧
    (∀ cfg u spec fn params, cfg.specUrl = some u → spec.paths = [] → fn ≠ "" →
      call_function cfg (some spec) fn params = CallResult.errNotFound fn) := by
  refine ⟨?_, ?_, ?_, ?_⟩
  · intro cfg fetched h
    simp [list_functions, h]
  · intro cfg
    cases h : cfg.specUrl <;> simp [list_functions, h]
  · intro cfg spec h
    cases hu : cfg.specUrl <;> simp [list_functions, hu, h]
  · intro cfg u spec fn params hu hp hfn
    simp [call_function, hu, hfn, findFunctionDef, hp, callEntries, findEntry]

/-- C9: the derived input schema maps each declared parameter name to its
declared type when that type is one of string, integer, boolean, number and
to string otherwise; the description defaults to a synthesized string
naming the parameter's location and name when absent; a name is in the
required list iff its `required` flag is true (parameter names being unique
within one operation, per the data model); and an empty parameter list
yields empty properties and an empty required list. -/
theorem c9_schema_derivation :
    deriveSchema [] = ⟨[], []⟩ ∧
    (∀ params p, p ∈ params → ((params.map (fun q => q.name)).Nodup) →
      propLookup (deriveSchema params).properties p.name =
        some ⟨p.name,
          (if p.declType.getD "string" = "string" ∨ p.declType.getD "string" = "integer" ∨
              p.declType.getD "string" = "boolean" ∨ p.declType.getD "string" = "number"
           then p.declType.getD "string" else "string"),
          p.description.getD (p.loc.getD "unknown" ++ " parameter " ++ p.name)⟩ ∧
      (p.name ∈ (deriveSchema params).required ↔ p.required.getD false = true)) := by
  refine ⟨rfl, ?_⟩
  intro params p hp hnd
  refine ⟨?_, deriveSchema_required_iff params p hp hnd⟩
  have h := deriveSchemaAux_lookup params ⟨[], []⟩ p hp hnd
  simpa [normType, paramDescription] using h

/-- C4: within one registry build the listed tool names are pairwise
distinct; every listed descriptor is the one derived from the first
eligible operation (document order over paths, declaration order over
methods, whitelist and method filters applied) bearing its name, so on a
collision the later operation is dropped, not renamed; and every
first-of-its-name eligible operation is listed. -/
theorem c4_collision_first_wins (cfg : Config) (spec : SpecDoc) (u : String)
    (hu : cfg.specUrl = some u) :
    (((list_functions cfg (some spec)).map (fun d => d.name)).Nodup) ∧
    (∀ d, d ∈ list_functions cfg (some spec) →
      ∃ l1 e l2, listEntries cfg spec.paths = l1 ++ e :: l2 ∧ d = mkDesc cfg e ∧
        ∀ e2 ∈ l1, entryName cfg e2 ≠ entryName cfg e) ∧
    (∀ l1 e l2, listEntries cfg spec.paths = l1 ++ e :: l2 →
      (∀ e2 ∈ l1, entryName cfg e2 ≠ entryName cfg e) →
      mkDesc cfg e ∈ list_functions cfg (some spec)) := by
  by_cases hemp : spec.paths.isEmpty
  · have hpaths : spec.paths = [] := by
      cases hx : spec.paths with
      | nil => rfl
      | cons a l => rw [hx] at hemp; cases hemp
    refine ⟨?_, ?_, ?_⟩
    · simp [list_functions, hu, hemp]
    · intro d hd
      simp [list_functions, hu, hemp] at hd
    · intro l1 e l2 heq
      rw [hpaths] at heq
      simp only [listEntries] at heq
      exact absurd heq (by simp)
  · have hlf : list_functions cfg (some spec) = registryGo cfg [] (listEntries cfg spec.paths) := by
      simp [list_functions, hu, hemp]
    refine ⟨?_, ?_, ?_⟩
    · rw [hlf]
      exact registryGo_nodup cfg _ [] (by simp)
    · intro d hd
      rw [hlf] at hd
      rcases registryGo_mem cfg _ [] d hd with h0 | ⟨l1, e, l2, heq, hdm, _, hfirst⟩
      · cases h0
      · exact ⟨l1, e, l2, heq, hdm, hfirst⟩
    · intro l1 e l2 heq hfirst
      rw [hlf, heq]
      exact registryGo_first_mem cfg l1 e l2 [] hfirst (by simp)

/-- C1 (amended): a name returned by listing always resolves — dispatch
never reports it not found (the dispatch enumeration is a superset of the
listing enumeration); and unless the dispatcher's first enumeration match
for the name (computed without the whitelist) lies on a whitelist-excluded
path, no access-denied error is returned either. The claim's unconditional
form fails: when an earlier-enumerated colliding path is whitelist-excluded,
dispatch matches it first and returns access-denied for the listed name
(`c1_counterexample`). -/
theorem c1_listed_names_resolve (cfg : Config) (spec : SpecDoc) (fn : String)
    (params : Option ParamDict)
    (hlisted : fn ∈ (list_functions cfg (some spec)).map (fun d => d.name)) :
    (∀ s, call_function cfg (some spec) fn params ≠ CallResult.errNotFound s) ∧
    (∀ e, findFunctionDef cfg spec.paths fn = some e →
      is_tool_whitelisted cfg.whitelist e.1 = true →
      ∀ s, call_function cfg (some spec) fn params ≠ CallResult.errAccessDenied s) := by
  by_cases hfn : fn = ""
  · constructor
    · intro s hc
      simp [call_function, hfn] at hc
    · intro e _ _ s hc
      simp [call_function, hfn] at hc
  · cases hu : cfg.specUrl with
    | none =>
      rw [List.mem_map] at hlisted
      obtain ⟨d, hd, _⟩ := hlisted
      simp [list_functions, hu] at hd
    | some u =>
      by_cases hemp : spec.paths.isEmpty
      · rw [List.mem_map] at hlisted
        obtain ⟨d, hd, _⟩ := hlisted
        simp [list_functions, hu, hemp] at hd
      · have hlf : list_functions cfg (some spec) =
            registryGo cfg [] (listEntries cfg spec.paths) := by
          simp [list_functions, hu, hemp]
        rw [List.mem_map] at hlisted
        obtain ⟨d, hd, hdname⟩ := hlisted
        rw [hlf] at hd
        rcases registryGo_mem cfg _ [] d hd with h0 | ⟨l1, e0, l2, heq, hdm, _, _⟩
        · cases h0
        · have he0mem : e0 ∈ listEntries cfg spec.paths := by
            rw [heq]
            simp
          have he0name : entryName cfg e0 = fn := by
            rw [← hdname, hdm, mkDesc_name]
          obtain ⟨e2, hfind⟩ := findEntry_isSome_of_mem cfg fn (callEntries spec.paths) e0
            (mem_listEntries_mem_callEntries cfg spec.paths e0 he0mem) he0name
          constructor
          · intro s
            rw [call_function_dispatch cfg spec u fn params e2 hfn hu hfind]
            exact dispatchWithDef_ne_notFound cfg spec fn params e2.1 e2.2.1 e2.2.2 s
          · intro e hfind2 hwl s
            have he2e : e2 = e := Option.some.inj (hfind ▸ hfind2)
            rw [call_function_dispatch cfg spec u fn params e hfn hu (he2e ▸ hfind)]
            exact dispatchWithDef_not_denied cfg spec fn params e.1 e.2.1 e.2.2 s hwl

/-- C2 (amended): a dispatch whose first enumeration match lies on a
non-whitelisted path is rejected with the access-denied error, and every
dispatched request's matched path is whitelisted — a whitelist-excluded
path is never silently served. The claim's unconditional error does not
hold: a colliding name can be served by an earlier-enumerated operation on
a whitelisted path (`c2_counterexample`). -/
theorem c2_whitelist_rejection :
    (∀ cfg spec u fn params e, cfg.specUrl = some u → fn ≠ "" →
      findFunctionDef cfg spec.paths fn = some e →
      is_tool_whitelisted cfg.whitelist e.1 = false →
      call_function cfg (some spec) fn params = CallResult.errAccessDenied fn) ∧
    (∀ cfg fetched fn params m url hd q b,
      call_function cfg fetched fn params = CallResult.request m url hd q b →
      ∃ spec e, fetched = some spec ∧ findFunctionDef cfg spec.paths fn = some e ∧
        is_tool_whitelisted cfg.whitelist e.1 = true ∧ m = upperStr e.2.1) := by
  constructor
  · intro cfg spec u fn params e hu hfn hfind hwl
    rw [call_function_dispatch cfg spec u fn params e hfn hu hfind]
    exact dispatchWithDef_denied cfg spec fn params e.1 e.2.1 e.2.2 hwl
  · intro cfg fetched fn params m url hd q b h
    obtain ⟨spec, e, base, hf, hfind, hwl, _, hm, _⟩ := call_request_inversion cfg fetched fn params m url hd q b h
    exact ⟨spec, e, hf, hfind, hwl, hm⟩

/-- C6: every dispatched request places the remaining caller parameters
(after sanitization, stream stripping and path substitution) as URL query
parameters with no JSON body when the resolved method is `GET`, and as the
JSON body with no query parameters otherwise. -/
theorem c6_method_placement (cfg : Config) (fetched : Option SpecDoc) (fn : String)
    (params : Option ParamDict) (m url : String) (hd : List (String × String))
    (q : ParamDict) (b : Option ParamDict)
    (h : call_function cfg fetched fn params = CallResult.request m url hd q b) :
    ∃ spec e base, fetched = some spec ∧
      findFunctionDef cfg spec.paths fn = some e ∧
      build_base_url cfg spec = some base ∧
      m = upperStr e.2.1 ∧
      ((m = "GET" ∧
        q = (applyPathParams (mkApiUrl base e.1)
          (streamStrip (strip_parameters cfg.stripKey params)) (pathParamNames e.2.2)).2 ∧
        b = none) ∨
       (m ≠ "GET" ∧ q = [] ∧
        b = some (applyPathParams (mkApiUrl base e.1)
          (streamStrip (strip_parameters cfg.stripKey params)) (pathParamNames e.2.2)).2)) := by
  obtain ⟨spec, e, base, hf, hfind, _, hbase, hm, _, _, hplace⟩ :=
    call_request_inversion cfg fetched fn params m url hd q b h
  exact ⟨spec, e, base, hf, hfind, hbase, hm, hplace⟩

/-- C3: when the matched operation declares a required path parameter that
is absent from the (sanitized, stream-stripped) caller parameters —
including the no-parameters case — `call_function` returns the JSON error
carrying the full list of missing required path parameters (so the message
names every one of them), and no outbound request is issued (the result is
an error, not a request). -/
theorem c3_missing_path_params (cfg : Config) (spec : SpecDoc) (u fn : String)
    (params : Option ParamDict) (e : Entry) (par : Param) (base : String)
    (hu : cfg.specUrl = some u) (hfn : fn ≠ "")
    (hfind : findFunctionDef cfg spec.paths fn = some e)
    (hwl : is_tool_whitelisted cfg.whitelist e.1 = true)
    (hbase : build_base_url cfg spec = some base)
    (hpar : par ∈ e.2.2.parameters) (hloc : par.loc = some "path")
    (hreq : par.required.getD false = true)
    (habs : hasKey (streamStrip (strip_parameters cfg.stripKey params)) par.name = false) :
    par.name ∈ missingRequiredPathParams e.2.2
      (streamStrip (strip_parameters cfg.stripKey params)) ∧
    call_function cfg (some spec) fn params =
      CallResult.errMissingPathParams
        (missingRequiredPathParams e.2.2 (streamStrip (strip_parameters cfg.stripKey params))) ∧
    (∀ a, a ∈ missingRequiredPathParams e.2.2
        (streamStrip (strip_parameters cfg.stripKey params)) →
      ∃ pre post,
        renderResult (call_function cfg (some spec) fn params) = some (pre ++ a ++ post)) := by
  have hmem : par.name ∈ missingRequiredPathParams e.2.2
      (streamStrip (strip_parameters cfg.stripKey params)) := by
    simp only [missingRequiredPathParams]
    exact List.mem_map.mpr ⟨par, List.mem_filter.mpr ⟨hpar, by simp [hloc, hreq, habs]⟩, rfl⟩
  have hname : par.name ∈ pathParamNames e.2.2 := by
    simp only [pathParamNames]
    exact List.mem_map.mpr ⟨par, List.mem_filter.mpr ⟨hpar, by simp [hloc]⟩, rfl⟩
  have hne : (pathParamNames e.2.2).isEmpty = false :=
    isEmpty_false_of_mem _ _ hname
  have hmne : (missingRequiredPathParams e.2.2
      (streamStrip (strip_parameters cfg.stripKey params))).isEmpty = false :=
    isEmpty_false_of_mem _ _ hmem
  rw [call_function_dispatch cfg spec u fn params e hfn hu hfind,
    dispatchWithDef_request cfg spec fn params e.1 e.2.1 base e.2.2 hwl hbase,
    buildRequest_missing _ _ _ _ _ _ hne hmne]
  exact ⟨hmem, rfl, fun a ha => renderResult_missing_mentions _ a ha⟩

/-- C7: for a dispatched operation with pairwise distinct declared
path-parameter names (the data model requires unique names), every declared
path parameter present in the caller parameters is removed from the
remaining mapping — it appears in neither the query parameters nor the JSON
body — and the dispatched URL is the API URL with each present declared
placeholder replaced, in declaration order, by the `str()` form of the
parameter's value; with a single declared path parameter this is literally
one placeholder replacement. -/
theorem c7_path_substitution (cfg : Config) (spec : SpecDoc) (u fn : String)
    (params : Option ParamDict) (e : Entry) (n : String) (v : PValue) (base : String)
    (hu : cfg.specUrl = some u) (hfn : fn ≠ "")
    (hfind : findFunctionDef cfg spec.paths fn = some e)
    (hwl : is_tool_whitelisted cfg.whitelist e.1 = true)
    (hbase : build_base_url cfg spec = some base)
    (hnd : (pathParamNames e.2.2).Nodup)
    (hmiss : missingRequiredPathParams e.2.2
      (streamStrip (strip_parameters cfg.stripKey params)) = [])
    (hn : n ∈ pathParamNames e.2.2)
    (hv : lookupD (streamStrip (strip_parameters cfg.stripKey params)) n = some v) :
    ∃ url q b,
      call_function cfg (some spec) fn params =
        CallResult.request (upperStr e.2.1) url (headersFor cfg e.2.2 (upperStr e.2.1)) q b ∧
      url = substFold (streamStrip (strip_parameters cfg.stripKey params))
        (mkApiUrl base e.1) (pathParamNames e.2.2) ∧
      (pathParamNames e.2.2 = [n] →
        url = strReplace (mkApiUrl base e.1) (placeholder n) (pyStr v)) ∧
      hasKey q n = false ∧ hasKey (b.getD []) n = false := by
  have hnomiss : ¬((pathParamNames e.2.2).isEmpty = false ∧
      (missingRequiredPathParams e.2.2
        (streamStrip (strip_parameters cfg.stripKey params))).isEmpty = false) := by
    intro hc
    rw [hmiss] at hc
    cases hc.2
  rw [call_function_dispatch cfg spec u fn params e hfn hu hfind,
    dispatchWithDef_request cfg spec fn params e.1 e.2.1 base e.2.2 hwl hbase,
    buildRequest_success _ _ _ _ _ _ hnomiss]
  have hurl : (applyPathParams (mkApiUrl base e.1)
      (streamStrip (strip_parameters cfg.stripKey params)) (pathParamNames e.2.2)).1 =
      substFold (streamStrip (strip_parameters cfg.stripKey params))
        (mkApiUrl base e.1) (pathParamNames e.2.2) :=
    applyPathParams_fst _ _ _ hnd
  have hsingle : pathParamNames e.2.2 = [n] →
      (applyPathParams (mkApiUrl base e.1)
        (streamStrip (strip_parameters cfg.stripKey params)) (pathParamNames e.2.2)).1 =
      strReplace (mkApiUrl base e.1) (placeholder n) (pyStr v) := by
    intro h1
    rw [hurl, h1]
    simp [substFold, hv]
  have hrm : hasKey (applyPathParams (mkApiUrl base e.1)
      (streamStrip (strip_parameters cfg.stripKey params)) (pathParamNames e.2.2)).2 n = false :=
    applyPathParams_removes _ _ _ _ hn
  by_cases hm : upperStr e.2.1 = "GET"
  · rw [if_pos hm, hm]
    exact ⟨_, _, _, rfl, hurl, hsingle, hrm, rfl⟩
  · rw [if_neg hm]
    exact ⟨_, _, _, rfl, hurl, hsingle, rfl, hrm⟩

/-- C10 (amended): the `stream` key is deleted only when truthy — with a
falsy value it is retained and forwarded to the upstream request as a query
parameter (`GET`) or body field (non-`GET`), provided `stream` is not
declared as a path parameter of the operation; when it is, the value is
consumed by path substitution into the URL instead (`c10_counterexample`
refutes the unconditional claim). -/
theorem c10_stream_falsy_retained (cfg : Config) (spec : SpecDoc) (u fn : String)
    (params : Option ParamDict) (e : Entry) (v : PValue) (base : String)
    (hu : cfg.specUrl = some u) (hfn : fn ≠ "")
    (hfind : findFunctionDef cfg spec.paths fn = some e)
    (hwl : is_tool_whitelisted cfg.whitelist e.1 = true)
    (hbase : build_base_url cfg spec = some base)
    (hv : lookupD (strip_parameters cfg.stripKey params) "stream" = some v)
    (hfalsy : truthy v = false)
    (hnp : "stream" ∉ pathParamNames e.2.2)
    (hmiss : missingRequiredPathParams e.2.2
      (streamStrip (strip_parameters cfg.stripKey params)) = []) :
    ∃ url q b,
      call_function cfg (some spec) fn params =
        CallResult.request (upperStr e.2.1) url (headersFor cfg e.2.2 (upperStr e.2.1)) q b ∧
      ((upperStr e.2.1 = "GET" ∧ lookupD q "stream" = some v ∧ b = none) ∨
       (upperStr e.2.1 ≠ "GET" ∧ q = [] ∧
        ∃ body, b = some body ∧ lookupD body "stream" = some v)) := by
  have hstream : streamStrip (strip_parameters cfg.stripKey params) =
      strip_parameters cfg.stripKey params := by
    simp [streamStrip, hv, hfalsy]
  have hnomiss : ¬((pathParamNames e.2.2).isEmpty = false ∧
      (missingRequiredPathParams e.2.2
        (streamStrip (strip_parameters cfg.stripKey params))).isEmpty = false) := by
    intro hc
    rw [hmiss] at hc
    cases hc.2
  rw [call_function_dispatch cfg spec u fn params e hfn hu hfind,
    dispatchWithDef_request cfg spec fn params e.1 e.2.1 base e.2.2 hwl hbase,
    buildRequest_success _ _ _ _ _ _ hnomiss]
  have hkeep : lookupD (applyPathParams (mkApiUrl base e.1)
      (streamStrip (strip_parameters cfg.stripKey params)) (pathParamNames e.2.2)).2
      "stream" = some v := by
    rw [applyPathParams_other _ _ _ _ hnp, hstream]
    exact hv
  by_cases hm : upperStr e.2.1 = "GET"
  · rw [if_pos hm, hm]
    exact ⟨_, _, _, rfl, Or.inl ⟨rfl, hkeep, rfl⟩⟩
  · rw [if_neg hm]
    exact ⟨_, _, _, rfl, Or.inr ⟨hm, rfl, _, rfl, hkeep⟩⟩

/-- C5 (amended): `list_functions` performs no modification of the fetched
document (it is a pure read in the source); `call_function` leaves the
document unchanged whenever the tool-name lookup does not run or fails, but
on a successful lookup it sets the matched operation's `method` key to the
resolved uppercase method — modifying that one operation and nothing else.
The claim's blanket immutability fails (`c5_counterexample`). -/
theorem c5_method_key_mutation :
    (∀ cfg fetched fn, fn = "" ∨ cfg.specUrl = none →
      spec_after_call cfg fetched fn = fetched) ∧
    (∀ cfg u spec fn, fn ≠ "" → cfg.specUrl = some u →
      ((findFunctionDef cfg spec.paths fn = none →
        spec_after_call cfg (some spec) fn = some spec) ∧
       (∀ e, findFunctionDef cfg spec.paths fn = some e →
        ∃ paths1 item1 item2 paths2,
          spec.paths = paths1 ++ (e.1, item1 ++ (e.2.1, e.2.2) :: item2) :: paths2 ∧
          spec_after_call cfg (some spec) fn =
            some (SpecDoc.mk
              (paths1 ++ (e.1, item1 ++ (e.2.1, setOpMethod e.2.2 (upperStr e.2.1)) :: item2) :: paths2)
              spec.serverUrl)))) := by
  constructor
  · intro cfg fetched fn h
    rcases h with h | h
    · simp [spec_after_call, h]
    · by_cases hfn : fn = "" <;> simp [spec_after_call, hfn, h]
  · intro cfg u spec fn hfn hu
    constructor
    · intro hfind
      simp only [spec_after_call, if_neg hfn, hu]
      rw [updatePaths_none cfg fn spec.paths hfind]
    · intro e hfind
      obtain ⟨p1, i1, i2, p2, heq, hupd⟩ := updatePaths_some cfg fn spec.paths e hfind
      refine ⟨p1, i1, i2, p2, heq, ?_⟩
      simp only [spec_after_call, if_neg hfn, hu]
      rw [hupd]

/-- A configuration with no spec location at all. -/
def cfgNoUrl : Config :=
  { cfgBase with specUrl := none }

/-- A fetched document without a paths section. -/
def specEmpty : SpecDoc :=
  ⟨[], none⟩

/-! Counterexamples and witnesses. -/

/-- C1 counterexample: under whitelist `/a/`, the name `get__a_b` is listed
(from the whitelisted `/a/b`), yet dispatch matches the earlier-enumerated
excluded path `/a_b` first and returns an access-denied error, so the
listed name does not dispatch. -/
theorem c1_counterexample :
    "get__a_b" ∈ (list_functions cfgWl (some specCollide1)).map (fun d => d.name) ∧
    call_function cfgWl (some specCollide1) "get__a_b" (some []) =
      CallResult.errAccessDenied "get__a_b" := by
  decide

/-- C1 witness: for the plain one-operation document the listed name
`get__x` is never reported not found by dispatch. -/
theorem c1_witness :
    call_function cfgBase (some specPlain) "get__x" none ≠
      CallResult.errNotFound "get__x" :=
  (c1_listed_names_resolve cfgBase specPlain "get__x" none (by decide)).1 "get__x"

/-- C2 counterexample: the path `/a_b` is whitelist-excluded and the name
`get__a_b` names its `GET` operation, yet `call_function` returns no error
at all — it dispatches the request to the earlier-enumerated whitelisted
colliding path `/a/b`. -/
theorem c2_counterexample :
    is_tool_whitelisted cfgWl.whitelist "/a_b" = false ∧
    toolName cfgWl "get" "/a_b" = "get__a_b" ∧
    call_function cfgWl (some specCollide2) "get__a_b" (some []) =
      CallResult.request "GET" "http://h/a/b" [] [] none := by
  decide

/-- C2 witness: when the first dispatch match lies on the excluded path the
access-denied error is returned. -/
theorem c2_witness :
    call_function cfgWl (some specCollide1) "get__a_b" (some []) =
      CallResult.errAccessDenied "get__a_b" :=
  c2_whitelist_rejection.1 cfgWl specCollide1 "https://example.com/spec.json" "get__a_b"
    (some []) ("/a_b", "get", opEmpty) rfl (by decide) (by decide) (by decide)

/-- C3 witness: calling `GET /items/\x7bid\x7d` with no parameters yields the
missing-path-parameter error carrying `id`. -/
theorem c3_witness :
    call_function cfgBase (some specItems) "get__items_id" none =
      CallResult.errMissingPathParams
        (missingRequiredPathParams opId (streamStrip (strip_parameters cfgBase.stripKey none))) :=
  (c3_missing_path_params cfgBase specItems "https://example.com/spec.json" "get__items_id"
    none ("/items/\x7bid\x7d", "get", opId) ⟨"id", some "path", some "integer", some true, none⟩
    "http://h" rfl (by decide) (by decide) (by decide) (by decide) (by decide) (by decide)
    (by decide) (by decide)).2.1

/-- C4 witness: the registry built over a colliding document lists pairwise
distinct names. -/
theorem c4_witness :
    ((list_functions cfgBase (some specCollide2)).map (fun d => d.name)).Nodup :=
  (c4_collision_first_wins cfgBase specCollide2 "https://example.com/spec.json" rfl).1

/-- C5 counterexample: dispatching `get__x` changes the fetched document —
the matched operation receives a `method` key — so the document is not
immutable across a dispatch. -/
theorem c5_counterexample :
    spec_after_call cfgBase (some specPlain) "get__x" ≠ some specPlain := by
  decide

/-- C5 witness: the post-call document differs from the original exactly by
the method-key write on the matched operation. -/
theorem c5_witness :
    ∃ paths1 item1 item2 paths2,
      specPlain.paths = paths1 ++ ("/x", item1 ++ ("get", opEmpty) :: item2) :: paths2 ∧
      spec_after_call cfgBase (some specPlain) "get__x" =
        some (SpecDoc.mk
          (paths1 ++ ("/x", item1 ++ ("get", setOpMethod opEmpty (upperStr "get")) :: item2) :: paths2)
          specPlain.serverUrl) :=
  (c5_method_key_mutation.2 cfgBase "https://example.com/spec.json" specPlain "get__x"
    (by decide) rfl).2 ("/x", "get", opEmpty) (by decide)

/-- C6 witness: a dispatched `GET` with one query parameter places it in the
query and sends no body. -/
theorem c6_witness :
    ∃ spec e base, (some specPlain : Option SpecDoc) = some spec ∧
      findFunctionDef cfgBase spec.paths "get__x" = some e ∧
      build_base_url cfgBase spec = some base ∧
      "GET" = upperStr e.2.1 ∧
      (("GET" = "GET" ∧
        [("q", PValue.vStr "1")] = (applyPathParams (mkApiUrl base e.1)
          (streamStrip (strip_parameters cfgBase.stripKey (some [("q", PValue.vStr "1")])))
          (pathParamNames e.2.2)).2 ∧
        (none : Option ParamDict) = none) ∨
       (("GET" : String) ≠ "GET" ∧ ([("q", PValue.vStr "1")] : ParamDict) = [] ∧
        (none : Option ParamDict) = some (applyPathParams (mkApiUrl base e.1)
          (streamStrip (strip_parameters cfgBase.stripKey (some [("q", PValue.vStr "1")])))
          (pathParamNames e.2.2)).2)) :=
  c6_method_placement cfgBase (some specPlain) "get__x" (some [("q", PValue.vStr "1")])
    "GET" "http://h/x" [] [("q", PValue.vStr "1")] none (by decide)

/-- C7 witness: dispatching `GET /items/\x7bid\x7d` with `id = 42` substitutes
`42` into the URL and removes `id` from query and body. -/
theorem c7_witness :
    ∃ url q b,
      call_function cfgBase (some specItems) "get__items_id" (some [("id", PValue.vInt 42)]) =
        CallResult.request (upperStr "get") url (headersFor cfgBase opId (upperStr "get")) q b ∧
      url = substFold (streamStrip (strip_parameters cfgBase.stripKey (some [("id", PValue.vInt 42)])))
        (mkApiUrl "http://h" "/items/\x7bid\x7d") (pathParamNames opId) ∧
      (pathParamNames opId = ["id"] →
        url = strReplace (mkApiUrl "http://h" "/items/\x7bid\x7d") (placeholder "id")
          (pyStr (PValue.vInt 42))) ∧
      hasKey q "id" = false ∧ hasKey (b.getD []) "id" = false :=
  c7_path_substitution cfgBase specItems "https://example.com/spec.json" "get__items_id"
    (some [("id", PValue.vInt 42)]) ("/items/\x7bid\x7d", "get", opId) "id" (PValue.vInt 42)
    "http://h" rfl (by decide) (by decide) (by decide) (by decide) (by decide) (by decide)
    (by decide) (by decide)

/-- C8 witness: each degraded-listing case yields the empty array, and the
no-paths document makes any call report the function not found. -/
theorem c8_witness :
    list_functions cfgNoUrl (some specPlain) = [] ∧
    list_functions cfgBase none = [] ∧
    list_functions cfgBase (some specEmpty) = [] ∧
    call_function cfgBase (some specEmpty) "anything" none =
      CallResult.errNotFound "anything" :=
  ⟨c8_empty_spec.1 cfgNoUrl (some specPlain) rfl,
   c8_empty_spec.2.1 cfgBase,
   c8_empty_spec.2.2.1 cfgBase specEmpty rfl,
   c8_empty_spec.2.2.2 cfgBase "https://example.com/spec.json" specEmpty "anything" none
     rfl rfl (by decide)⟩

/-- C9 witness: the declared `id` parameter derives the `integer` type, the
synthesized `path parameter id` description, and a required entry. -/
theorem c9_witness :
    propLookup (deriveSchema opId.parameters).properties "id" =
      some ⟨"id", "integer", "path parameter id"⟩ ∧
    "id" ∈ (deriveSchema opId.parameters).required := by
  have h := c9_schema_derivation.2 opId.parameters
    ⟨"id", some "path", some "integer", some true, none⟩ (by decide) (by decide)
  exact ⟨by simpa using h.1, h.2.mpr rfl⟩

/-- C10 counterexample: with `stream` declared as a path parameter, a falsy
`stream` value is consumed by path substitution — the dispatched `GET`
carries an empty query, so the entry is not forwarded as the claim states. -/
theorem c10_counterexample :
    truthy (PValue.vBool false) = false ∧
    call_function cfgBase (some specStream) "get__x_stream"
        (some [("stream", PValue.vBool false)]) =
      CallResult.request "GET" "http://h/x/False" [] [] none := by
  decide

/-- C10 witness: a falsy `stream` value on an operation without a `stream`
path parameter is retained and forwarded in the query. -/
theorem c10_witness :
    ∃ url q b,
      call_function cfgBase (some specPlain) "get__x"
          (some [("stream", PValue.vInt 0), ("q", PValue.vStr "x")]) =
        CallResult.request (upperStr "get") url (headersFor cfgBase opEmpty (upperStr "get")) q b ∧
      ((upperStr "get" = "GET" ∧ lookupD q "stream" = some (PValue.vInt 0) ∧ b = none) ∨
       (upperStr "get" ≠ "GET" ∧ q = [] ∧
        ∃ body, b = some body ∧ lookupD body "stream" = some (PValue.vInt 0))) :=
  c10_stream_falsy_retained cfgBase specPlain "https://example.com/spec.json" "get__x"
    (some [("stream", PValue.vInt 0), ("q", PValue.vStr "x")]) ("/x", "get", opEmpty)
    (PValue.vInt 0) "http://h" rfl (by decide) (by decide) (by decide) (by decide)
    (by decide) (by decide) (by decide) (by decide)
